import Mathlib

/-!
Verification of the pixel-scrambler core of `src/main.py`.

The program is a two-stage reversible image transform: a per-pixel additive
mod-256 channel shift and a Fisher-Yates pixel permutation, both driven by a
pseudorandom stream seeded from the SHA-256 digest of a password.

The Python `random` module (Mersenne Twister) is external library code; after
`random.seed(seed)`, the k-th bounded draw is a pure function of `(seed, k)`.
We therefore model the generator by an arbitrary stream
`stream : Nat → Nat → Nat` (seed and draw index to raw value) together with a
generator state `RNG` recording the seed and the position in the stream; the
bounded primitives reduce a raw draw modulo the bound, which is all the
program relies on.  All theorems are proved for every such stream, hence in
particular for the Mersenne Twister stream.  `random.seed(seed)` is modelled
by `seedRNG`, which resets the state, exactly as the first line of
`shift_colors` and `shuffle_pixels` does.
-/

/-- One RGB pixel: three channel values (the code keeps them in `[0,255]`). -/
abbrev Pixel := Nat × Nat × Nat

/-- A decoded PIL image: mode string, dimensions, and the row-major pixel
list returned by `image.getdata()`. -/
structure Image where
  mode : String
  width : Nat
  height : Nat
  data : List Pixel
  deriving DecidableEq, Repr

/-- State of the global `random` generator: the seed it was last seeded with
and how many draws have been consumed since. -/
structure RNG where
  seed : Nat
  pos : Nat
  deriving DecidableEq, Repr

/-- `random.seed(seed)`: reset the global generator to the start of the
stream determined by `seed`. -/
def seedRNG (seed : Nat) : RNG := ⟨seed, 0⟩

/-- Consume one raw draw from the stream. -/
def draw (stream : Nat → Nat → Nat) (g : RNG) : Nat × RNG :=
  (stream g.seed g.pos, ⟨g.seed, g.pos + 1⟩)

/-- `random.randint(0, 255)`: one bounded draw in `[0,255]`. -/
def randint255 (stream : Nat → Nat → Nat) (g : RNG) : Nat × RNG :=
  let (v, g1) := draw stream g
  (v % 256, g1)

/-- `random._randbelow(n)` (for `n ≥ 1`): one bounded draw in `[0,n)`. -/
def randbelow (stream : Nat → Nat → Nat) (g : RNG) (n : Nat) : Nat × RNG :=
  let (v, g1) := draw stream g
  (v % n, g1)

/-- Forward shift of one channel: `(c + s) % 256` (Python `%` on naturals). -/
def addShift (c s : Nat) : Nat := (c + s) % 256

/-- Reverse shift of one channel: `(c - s) % 256` with Python integer `%`
semantics, i.e. the result is the nonnegative representative; this is Lean's
`Int.emod`. -/
def subShift (c s : Nat) : Nat := (((c : Int) - (s : Int)) % 256).toNat

/-- Body of the loop of `shift_colors`: for each pixel draw three bounded
values and shift (or reverse-shift) the three channels. -/
def shiftLoop (stream : Nat → Nat → Nat) (reverse : Bool) :
    List Pixel → RNG → List Pixel × RNG
  | [], g => ([], g)
  | (r, gc, b) :: ps, g =>
    let (shift_r, g1) := randint255 stream g
    let (shift_g, g2) := randint255 stream g1
    let (shift_b, g3) := randint255 stream g2
    let p :=
      if reverse then (subShift r shift_r, subShift gc shift_g, subShift b shift_b)
      else (addShift r shift_r, addShift gc shift_g, addShift b shift_b)
    let (rest, g4) := shiftLoop stream reverse ps g3
    (p :: rest, g4)

/-- `shift_colors(pixels, seed, reverse)` from `src/main.py`: re-seed the
global generator, then shift every pixel's channels by three fresh bounded
draws.  The incoming generator state `g0` is discarded by `random.seed(seed)`
on the first line, exactly as in the source. -/
def shift_colors (stream : Nat → Nat → Nat) (g0 : RNG) (pixels : List Pixel)
    (seed : Nat) (reverse : Bool) : List Pixel × RNG :=
  let _ := g0
  shiftLoop stream reverse pixels (seedRNG seed)

/-- `x[i], x[j] = x[j], x[i]` on a list; indices outside the list leave it
unchanged (every call in the shuffle is in bounds). -/
def listSwap (xs : List Nat) (i j : Nat) : List Nat :=
  match xs[i]?, xs[j]? with
  | some a, some b => (xs.set i b).set j a
  | _, _ => xs

/-- The Fisher-Yates loop of CPython's `random.shuffle`:
`for i in reversed(range(1, n)): j = _randbelow(i+1); swap x[i] x[j]`.
The first argument is the current value of `i`. -/
def fyLoop (stream : Nat → Nat → Nat) : Nat → List Nat → RNG → List Nat × RNG
  | 0, xs, g => (xs, g)
  | i + 1, xs, g =>
    let (j, g1) := randbelow stream g (i + 2)
    fyLoop stream i (listSwap xs (i + 1) j) g1

/-- `random.shuffle(xs)`: Fisher-Yates from index `n-1` down to `1`. -/
def pyShuffle (stream : Nat → Nat → Nat) (xs : List Nat) (g : RNG) :
    List Nat × RNG :=
  fyLoop stream (xs.length - 1) xs g

/-- Lines 48-52 of `src/main.py`: `reverse_indices = [0] * total_pixels;
for i, shuffled_index in enumerate(indices): reverse_indices[shuffled_index] = i`. -/
def invertIndices (total_pixels : Nat) (indices : List Nat) : List Nat :=
  indices.enum.foldl (fun acc p => acc.set p.2 p.1) (List.replicate total_pixels 0)

/-- `shuffle_pixels(image, seed, reverse)` from `src/main.py`. -/
def shuffle_pixels (stream : Nat → Nat → Nat) (g0 : RNG) (image : Image)
    (seed : Nat) (reverse : Bool) : Image × RNG :=
  let _ := g0
  let pixels := image.data
  let total_pixels := pixels.length
  let sres := pyShuffle stream (List.range total_pixels) (seedRNG seed)
  let indices := if reverse then invertIndices total_pixels sres.1 else sres.1
  let shuffled_pixels := indices.map (fun i => pixels.getD i (0, 0, 0))
  (⟨image.mode, image.width, image.height, shuffled_pixels⟩, sres.2)

/-- The permutation of `[0,N)` drawn by the permutation stage for a given
stream, seed and pixel count (the `indices` list of `shuffle_pixels` before
the optional inversion). -/
def shuffledIndices (stream : Nat → Nat → Nat) (seed n : Nat) : List Nat :=
  (pyShuffle stream (List.range n) (seedRNG seed)).1

/-!
`generate_seed` computes `int(hashlib.sha256(password.encode()).hexdigest(), 16)`:
the SHA-256 digest of the UTF-8 encoding of the password, read as a
big-endian unsigned integer.  SHA-256 (FIPS 180-4) is implemented below over
`Nat`, with 32-bit words kept in `[0, 2^32)` by explicit reduction.
-/

/-- Reduce to a 32-bit word. -/
def w32 (x : Nat) : Nat := x % 4294967296

/-- Right rotation of a 32-bit word by `n` bits. -/
def rotr32 (n x : Nat) : Nat := w32 (x / 2 ^ n + x % 2 ^ n * 2 ^ (32 - n))

/-- Logical right shift by `n` bits. -/
def shr32 (n x : Nat) : Nat := x / 2 ^ n

/-- SHA-256 `Ch(x,y,z) = (x ∧ y) ⊕ (¬x ∧ z)`. -/
def shaCh (x y z : Nat) : Nat := (x &&& y) ^^^ ((x ^^^ 4294967295) &&& z)

/-- SHA-256 `Maj(x,y,z)`. -/
def shaMaj (x y z : Nat) : Nat := ((x &&& y) ^^^ (x &&& z)) ^^^ (y &&& z)

/-- SHA-256 `Σ₀`. -/
def shaS0 (x : Nat) : Nat := (rotr32 2 x ^^^ rotr32 13 x) ^^^ rotr32 22 x

/-- SHA-256 `Σ₁`. -/
def shaS1 (x : Nat) : Nat := (rotr32 6 x ^^^ rotr32 11 x) ^^^ rotr32 25 x

/-- SHA-256 `σ₀`. -/
def shas0 (x : Nat) : Nat := (rotr32 7 x ^^^ rotr32 18 x) ^^^ shr32 3 x

/-- SHA-256 `σ₁`. -/
def shas1 (x : Nat) : Nat := (rotr32 17 x ^^^ rotr32 19 x) ^^^ shr32 10 x

/-- The 64 SHA-256 round constants. -/
def shaK : List Nat :=
  [1116352408, 1899447441, 3049323471, 3921009573,
   961987163, 1508970993, 2453635748, 2870763221,
   3624381080, 310598401, 607225278, 1426881987,
   1925078388, 2162078206, 2614888103, 3248222580,
   3835390401, 4022224774, 264347078, 604807628,
   770255983, 1249150122, 1555081692, 1996064986,
   2554220882, 2821834349, 2952996808, 3210313671,
   3336571891, 3584528711, 113926993, 338241895,
   666307205, 773529912, 1294757372, 1396182291,
   1695183700, 1986661051, 2177026350, 2456956037,
   2730485921, 2820302411, 3259730800, 3345764771,
   3516065817, 3600352804, 4094571909, 275423344,
   430227734, 506948616, 659060556, 883997877,
   958139571, 1322822218, 1537002063, 1747873779,
   1955562222, 2024104815, 2227730452, 2361852424,
   2428436474, 2756734187, 3204031479, 3329325298]

/-- The SHA-256 initial hash value. -/
def shaH0 : List Nat :=
  [1779033703, 3144134277, 1013904242, 2773480762,
   1359893119, 2600822924, 528734635, 1541459225]

/-- `k` big-endian bytes of `n`. -/
def toBytesBE : Nat → Nat → List Nat
  | 0, _ => []
  | k + 1, n => toBytesBE k (n / 256) ++ [n % 256]

/-- SHA-256 padding: append `0x80`, zeros to 56 mod 64 bytes, then the
64-bit big-endian bit length. -/
def shaPad (msg : List Nat) : List Nat :=
  msg ++ [0x80] ++ List.replicate ((119 - msg.length % 64) % 64) 0
      ++ toBytesBE 8 (8 * msg.length)

/-- Split a byte list into 64-byte blocks (`fuel` bounds the number of
blocks; one byte of fuel per input byte is always enough). -/
def chunksAux : Nat → List Nat → List (List Nat)
  | 0, _ => []
  | _ + 1, [] => []
  | fuel + 1, b :: rest =>
    ((b :: rest).take 64) :: chunksAux fuel ((b :: rest).drop 64)

/-- Split a byte list into 64-byte blocks. -/
def chunks64 (l : List Nat) : List (List Nat) :=
  chunksAux l.length l

/-- Big-endian 32-bit words from bytes. -/
def bytesToWords : List Nat → List Nat
  | b0 :: b1 :: b2 :: b3 :: rest =>
    (((b0 * 256 + b1) * 256 + b2) * 256 + b3) :: bytesToWords rest
  | _ => []

/-- Extend the 16-word message schedule by `k` further words. -/
def extendSchedule : Nat → List Nat → List Nat
  | 0, w => w
  | k + 1, w =>
    let n := w.length
    let t := w32 (shas1 (w.getD (n - 2) 0) + w.getD (n - 7) 0
        + shas0 (w.getD (n - 15) 0) + w.getD (n - 16) 0)
    extendSchedule k (w ++ [t])

/-- One SHA-256 compression round on the 8-word working state. -/
def shaRound (st : List Nat) (w k : Nat) : List Nat :=
  match st with
  | [a, b, c, d, e, f, g, h] =>
    let t1 := w32 (h + shaS1 e + shaCh e f g + k + w)
    let t2 := w32 (shaS0 a + shaMaj a b c)
    [w32 (t1 + t2), a, b, c, w32 (d + t1), e, f, g]
  | _ => st

/-- Compress one 64-byte block into the running hash value. -/
def shaCompress (h : List Nat) (block : List Nat) : List Nat :=
  let w := extendSchedule 48 (bytesToWords block)
  let st := (w.zip shaK).foldl (fun s p => shaRound s p.1 p.2) h
  (h.zip st).map (fun p => w32 (p.1 + p.2))

/-- SHA-256 digest of a byte list, as eight 32-bit words. -/
def sha256Words (msg : List Nat) : List Nat :=
  (chunks64 (shaPad msg)).foldl shaCompress shaH0

/-- UTF-8 encoding of one Unicode code point. -/
def utf8Encode (c : Nat) : List Nat :=
  if c < 0x80 then [c]
  else if c < 0x800 then [0xC0 + c / 64, 0x80 + c % 64]
  else if c < 0x10000 then
    [0xE0 + c / 4096, 0x80 + c / 64 % 64, 0x80 + c % 64]
  else
    [0xF0 + c / 262144, 0x80 + c / 4096 % 64, 0x80 + c / 64 % 64, 0x80 + c % 64]

/-- `password.encode()`: the UTF-8 bytes of a string. -/
def strBytes (s : String) : List Nat :=
  s.data.foldr (fun c acc => utf8Encode c.toNat ++ acc) []

/-- `generate_seed(password)` from `src/main.py`: the SHA-256 digest of the
password's UTF-8 bytes, interpreted as a big-endian unsigned integer
(`int(hexdigest, 16)`). -/
def generate_seed (password : String) : Nat :=
  (sha256Words (strBytes password)).foldl (fun acc w => acc * 4294967296 + w) 0

/-!
The application state machine.  `PixelShufflerApp` holds the loaded source
image (`self.image`), the last displayed result (`self.processed_image`), and
implicitly the state of the global `random` generator.  The `Encrypt` and
`Decrypt` button handlers are modelled as state transitions that also return
the warning dialog they show, if any (`messagebox.showwarning`).  Display
concerns (`thumbnail`, canvas drawing) are UI collaborators outside the core
boundary and are not modelled.
-/

/-- The fields of `PixelShufflerApp` the pipeline touches, plus the global
generator state. -/
structure AppState where
  image : Option Image
  processedImage : Option Image
  rng : RNG
  deriving DecidableEq, Repr

/-- `PixelShufflerApp.encrypt_image` from `src/main.py` (lines 128-147):
guard on a loaded image and a non-empty password, derive the seed, optionally
shift colors writing the result back into `self.image` (`putdata`), then
shuffle into a new image which becomes `self.processed_image`.  Returns the
new state and the warning shown, if any. -/
def encrypt_image (stream : Nat → Nat → Nat) (st : AppState) (password : String)
    (color_shift : Bool) : AppState × Option String :=
  match st.image with
  | none => (st, some "No image loaded!")
  | some img =>
    if password = "" then (st, some "Password is required!")
    else
      let seed := generate_seed password
      let sres := shift_colors stream st.rng img.data seed false
      let img1 : Image :=
        if color_shift then ⟨img.mode, img.width, img.height, sres.1⟩ else img
      let g1 := if color_shift then sres.2 else st.rng
      let eres := shuffle_pixels stream g1 img1 seed false
      (⟨some img1, some eres.1, eres.2⟩, none)

/-- `PixelShufflerApp.decrypt_image` from `src/main.py` (lines 149-169):
guard on a loaded image and a non-empty password, derive the seed, unshuffle
into a new image, optionally reverse the color shift in that new image
(`putdata` on `unshuffled_image`), and display it.  `self.image` is not
modified.  Returns the new state and the warning shown, if any. -/
def decrypt_image (stream : Nat → Nat → Nat) (st : AppState) (password : String)
    (color_shift : Bool) : AppState × Option String :=
  match st.image with
  | none => (st, some "No image loaded!")
  | some img =>
    if password = "" then (st, some "Password is required!")
    else
      let seed := generate_seed password
      let ures := shuffle_pixels stream st.rng img seed true
      let unshuffled_image := ures.1
      let rres := shift_colors stream ures.2 unshuffled_image.data seed true
      let result : Image :=
        if color_shift then
          ⟨unshuffled_image.mode, unshuffled_image.width, unshuffled_image.height, rres.1⟩
        else unshuffled_image
      let g2 := if color_shift then rres.2 else ures.2
      (⟨st.image, some result, g2⟩, none)

/-- A concrete deterministic stream used to instantiate the general theorems
on executable inputs. -/
def demoStream (seed k : Nat) : Nat := seed / 2 ^ (k % 24) + 97 * k + 13

/-- A pixel channel is an 8-bit value. -/
def pixelInRange (p : Pixel) : Prop := p.1 < 256 ∧ p.2.1 < 256 ∧ p.2.2 < 256

instance (p : Pixel) : Decidable (pixelInRange p) := by
  unfold pixelInRange; infer_instance

/-!  ## Lemmas about the channel shift stage -/

theorem addShift_lt (c s : Nat) : addShift c s < 256 := by
  unfold addShift; omega

theorem subShift_lt (c s : Nat) : subShift c s < 256 := by
  unfold subShift; omega

theorem subShift_addShift (c s : Nat) (h : c < 256) : subShift (addShift c s) s = c := by
  unfold addShift subShift; omega

theorem shiftLoop_length (stream : Nat → Nat → Nat) (reverse : Bool) :
    ∀ (ps : List Pixel) (g : RNG), (shiftLoop stream reverse ps g).1.length = ps.length := by
  intro ps
  induction ps with
  | nil => intro g; simp [shiftLoop]
  | cons p ps ih =>
    intro g
    obtain ⟨r, gc, b⟩ := p
    simp [shiftLoop, ih]

theorem shiftLoop_inRange (stream : Nat → Nat → Nat) (reverse : Bool) :
    ∀ (ps : List Pixel) (g : RNG) (q : Pixel),
      q ∈ (shiftLoop stream reverse ps g).1 → pixelInRange q := by
  intro ps
  induction ps with
  | nil => intro g q hq; simp [shiftLoop] at hq
  | cons p ps ih =>
    intro g q hq
    obtain ⟨r, gc, b⟩ := p
    simp only [shiftLoop, List.mem_cons] at hq
    rcases hq with hq | hq
    · subst hq
      cases reverse <;>
        simp [pixelInRange, addShift_lt, subShift_lt]
    · exact ih _ q hq

theorem shiftLoop_roundtrip (stream : Nat → Nat → Nat) :
    ∀ (ps : List Pixel) (g : RNG), (∀ p ∈ ps, pixelInRange p) →
      (shiftLoop stream true (shiftLoop stream false ps g).1 g).1 = ps := by
  intro ps
  induction ps with
  | nil => intro g _; simp [shiftLoop]
  | cons p ps ih =>
    intro g hp
    obtain ⟨r, gc, b⟩ := p
    have hhead : pixelInRange (r, gc, b) := hp _ (List.mem_cons_self _ _)
    obtain ⟨h1, h2, h3⟩ := hhead
    simp only [shiftLoop, randint255, draw]
    simp only [subShift_addShift _ _ h1, subShift_addShift _ _ h2,
      subShift_addShift _ _ h3]
    rw [ih _ (fun q hq => hp q (List.mem_cons_of_mem _ hq))]
    simp

theorem shift_colors_roundtrip (stream : Nat → Nat → Nat) (g0 g1 : RNG)
    (pixels : List Pixel) (seed : Nat) (h : ∀ p ∈ pixels, pixelInRange p) :
    (shift_colors stream g1 (shift_colors stream g0 pixels seed false).1 seed true).1
      = pixels := by
  unfold shift_colors
  exact shiftLoop_roundtrip stream pixels (seedRNG seed) h

/-!  ## Lemmas about the permutation stage

The `indices` list built by `random.shuffle` is obtained from `range n` by a
sequence of in-bounds transpositions, so it is a permutation of `range n`;
the `reverse_indices` pass then really computes the inverse permutation.
-/

theorem consSetPerm {α : Type} :
    ∀ (t : List α) (x : α) (k : Nat) (hk : k < t.length),
      List.Perm (t[k] :: t.set k x) (x :: t) := by
  intro t
  induction t with
  | nil => intro x k hk; simp at hk
  | cons y t ih =>
    intro x k hk
    match k with
    | 0 =>
      simp only [List.getElem_cons_zero, List.set_cons_zero]
      exact List.Perm.swap x y t
    | k + 1 =>
      simp only [List.getElem_cons_succ, List.set_cons_succ]
      have hk' : k < t.length := by simpa using hk
      exact (List.Perm.swap y (t[k]) (t.set k x)).trans
        (((ih x k hk').cons y).trans (List.Perm.swap x y t))

theorem setSetPerm {α : Type} :
    ∀ (xs : List α) (i j : Nat) (hi : i < xs.length) (hj : j < xs.length),
      List.Perm ((xs.set i xs[j]).set j xs[i]) xs := by
  intro xs
  induction xs with
  | nil => intro i j hi _; simp at hi
  | cons x t ih =>
    intro i j hi hj
    match i, j with
    | 0, 0 =>
      simp only [List.getElem_cons_zero, List.set_cons_zero]
      exact List.Perm.refl _
    | 0, k + 1 =>
      simp only [List.getElem_cons_zero, List.getElem_cons_succ,
        List.set_cons_zero, List.set_cons_succ]
      exact consSetPerm t x k (by simpa using hj)
    | k + 1, 0 =>
      simp only [List.getElem_cons_zero, List.getElem_cons_succ,
        List.set_cons_zero, List.set_cons_succ]
      exact consSetPerm t x k (by simpa using hi)
    | k + 1, m + 1 =>
      simp only [List.getElem_cons_succ, List.set_cons_succ]
      exact List.Perm.cons x (ih k m (by simpa using hi) (by simpa using hj))

theorem listSwap_perm (xs : List Nat) (i j : Nat) :
    List.Perm (listSwap xs i j) xs := by
  unfold listSwap
  cases hi : xs[i]? with
  | none => exact List.Perm.refl _
  | some a =>
    cases hj : xs[j]? with
    | none => exact List.Perm.refl _
    | some b =>
      obtain ⟨hilt, hia⟩ := List.getElem?_eq_some_iff.mp hi
      obtain ⟨hjlt, hjb⟩ := List.getElem?_eq_some_iff.mp hj
      rw [← hia, ← hjb]
      exact setSetPerm xs i j hilt hjlt

theorem fyLoop_perm (stream : Nat → Nat → Nat) :
    ∀ (i : Nat) (xs : List Nat) (g : RNG),
      List.Perm (fyLoop stream i xs g).1 xs := by
  intro i
  induction i with
  | zero => intro xs g; exact List.Perm.refl _
  | succ i ih =>
    intro xs g
    simp only [fyLoop, randbelow, draw]
    exact (ih _ _).trans (listSwap_perm xs (i + 1) _)

theorem shuffledIndices_perm (stream : Nat → Nat → Nat) (seed n : Nat) :
    List.Perm (shuffledIndices stream seed n) (List.range n) := by
  unfold shuffledIndices pyShuffle
  exact fyLoop_perm stream _ (List.range n) (seedRNG seed)

theorem foldl_set_length (l : List (Nat × Nat)) :
    ∀ (acc : List Nat),
      (l.foldl (fun acc p => acc.set p.2 p.1) acc).length = acc.length := by
  induction l with
  | nil => intro acc; rfl
  | cons p t ih => intro acc; simp [List.foldl_cons, ih, List.length_set]

theorem foldl_set_getElem?_of_none (m : Nat) :
    ∀ (l : List (Nat × Nat)) (acc : List Nat), (∀ p ∈ l, p.2 ≠ m) →
      (l.foldl (fun acc p => acc.set p.2 p.1) acc)[m]? = acc[m]? := by
  intro l
  induction l with
  | nil => intro acc _; rfl
  | cons p t ih =>
    intro acc hl
    rw [List.foldl_cons, ih _ (fun q hq => hl q (List.mem_cons_of_mem _ hq))]
    exact List.getElem?_set_ne (hl p (List.mem_cons_self _ _))

theorem snd_mem_of_mem_enumFrom {p : Nat × Nat} :
    ∀ (t : List Nat) (k : Nat), p ∈ t.enumFrom k → p.2 ∈ t := by
  intro t
  induction t with
  | nil => intro k h; simp [List.enumFrom] at h
  | cons x t ih =>
    intro k h
    rcases List.mem_cons.mp h with h | h
    · subst h; exact List.mem_cons_self _ _
    · exact List.mem_cons_of_mem _ (ih (k + 1) h)

theorem foldl_enumFrom_getElem? :
    ∀ (l : List Nat) (k : Nat) (acc : List Nat), l.Nodup →
      ∀ (i : Nat) (hi : i < l.length), l[i] < acc.length →
        ((l.enumFrom k).foldl (fun acc p => acc.set p.2 p.1) acc)[l[i]]?
          = some (k + i) := by
  intro l
  induction l with
  | nil => intro k acc _ i hi; simp at hi
  | cons x t ih =>
    intro k acc hnd i hi hbound
    obtain ⟨hx, hnd'⟩ := List.nodup_cons.mp hnd
    match i with
    | 0 =>
      simp only [List.getElem_cons_zero] at hbound ⊢
      rw [List.enumFrom_cons, List.foldl_cons]
      rw [foldl_set_getElem?_of_none x _ _
        (fun q hq hqx => hx (hqx ▸ snd_mem_of_mem_enumFrom t (k + 1) hq))]
      simpa using List.getElem?_set_self (by simpa using hbound)
    | i + 1 =>
      simp only [List.getElem_cons_succ] at hbound ⊢
      rw [List.enumFrom_cons, List.foldl_cons]
      have := ih (k + 1) (acc.set x k) hnd' i (by simpa using hi)
        (by simpa [List.length_set] using hbound)
      rw [this]
      congr 1
      omega

theorem invertIndices_getElem? (total : Nat) (indices : List Nat)
    (hp : List.Perm indices (List.range total)) (m : Nat) (hm : m < total) :
    ∃ i : Nat, ∃ hi : i < indices.length, indices[i] = m ∧
      (invertIndices total indices)[m]? = some i := by
  have hmem : m ∈ indices := hp.mem_iff.mpr (List.mem_range.mpr hm)
  obtain ⟨i, hi, hieq⟩ := List.getElem_of_mem hmem
  refine ⟨i, hi, hieq, ?_⟩
  have := foldl_enumFrom_getElem? indices 0 (List.replicate total 0)
    (hp.nodup_iff.mpr (List.nodup_range total)) i hi
    (by simpa [List.length_replicate, hieq] using hm)
  unfold invertIndices
  rw [List.enum]
  rw [hieq] at this
  simpa using this

theorem invertIndices_length (total : Nat) (indices : List Nat) :
    (invertIndices total indices).length = total := by
  unfold invertIndices
  rw [foldl_set_length]
  exact List.length_replicate _ _

theorem getD_inRange (pixels : List Pixel) (h : ∀ p ∈ pixels, pixelInRange p)
    (i : Nat) : pixelInRange (pixels.getD i (0, 0, 0)) := by
  by_cases hi : i < pixels.length
  · rw [List.getD_eq_getElem?_getD, List.getElem?_eq_getElem hi]
    exact h _ (List.getElem_mem hi)
  · rw [List.getD_eq_getElem?_getD, List.getElem?_eq_none (by omega)]
    exact ⟨by norm_num, by norm_num, by norm_num⟩

/-- Unshuffling with the inverse index list restores any buffer shuffled with
an index list that is a permutation of `range n`. -/
theorem unshuffle_shuffle (pixels : List Pixel) (indices : List Nat)
    (hp : List.Perm indices (List.range pixels.length)) :
    (invertIndices pixels.length indices).map
      (fun i => (indices.map (fun j => pixels.getD j (0, 0, 0))).getD i (0, 0, 0))
      = pixels := by
  have hlen : indices.length = pixels.length := by simpa using hp.length_eq
  apply List.ext_getElem
  · rw [List.length_map, invertIndices_length]
  · intro m hm1 hm2
    obtain ⟨i, hi, hieq, hinv⟩ :=
      invertIndices_getElem? pixels.length indices hp m hm2
    rw [List.getElem_map]
    have hminv : m < (invertIndices pixels.length indices).length := by
      rw [invertIndices_length]; exact hm2
    have hgm : (invertIndices pixels.length indices)[m] = i := by
      obtain ⟨_, heq⟩ := List.getElem?_eq_some_iff.mp hinv
      exact heq
    rw [hgm, List.getD_eq_getElem?_getD, List.getElem?_map,
      List.getElem?_eq_getElem hi]
    simp [hieq, List.getD_eq_getElem?_getD, List.getElem?_eq_getElem hm2]

theorem pyShuffle_range (stream : Nat → Nat → Nat) (seed n : Nat) :
    (pyShuffle stream (List.range n) (seedRNG seed)).1
      = shuffledIndices stream seed n := rfl

/-- Unshuffling the shuffled image with the same seed restores it exactly. -/
theorem shuffle_pixels_roundtrip (stream : Nat → Nat → Nat) (g0 g1 : RNG)
    (img : Image) (seed : Nat) :
    (shuffle_pixels stream g1 (shuffle_pixels stream g0 img seed false).1 seed true).1
      = img := by
  obtain ⟨mo, w, h, pixels⟩ := img
  have hperm := shuffledIndices_perm stream seed pixels.length
  have hlen : (shuffledIndices stream seed pixels.length).length = pixels.length := by
    simpa using hperm.length_eq
  simp only [shuffle_pixels, pyShuffle_range, if_false, Bool.false_eq_true, if_true,
    List.length_map, hlen]
  exact congrArg (Image.mk mo w h) (unshuffle_shuffle pixels _ hperm)

theorem shuffle_pixels_length (stream : Nat → Nat → Nat) (g : RNG) (img : Image)
    (seed : Nat) (reverse : Bool) :
    (shuffle_pixels stream g img seed reverse).1.data.length = img.data.length := by
  have hlen : (shuffledIndices stream seed img.data.length).length = img.data.length := by
    simpa using (shuffledIndices_perm stream seed img.data.length).length_eq
  cases reverse <;>
    simp [shuffle_pixels, pyShuffle_range, invertIndices_length, hlen]

theorem shuffle_pixels_dims (stream : Nat → Nat → Nat) (g : RNG) (img : Image)
    (seed : Nat) (reverse : Bool) :
    (shuffle_pixels stream g img seed reverse).1.mode = img.mode ∧
    (shuffle_pixels stream g img seed reverse).1.width = img.width ∧
    (shuffle_pixels stream g img seed reverse).1.height = img.height :=
  ⟨rfl, rfl, rfl⟩

theorem shuffle_pixels_inRange (stream : Nat → Nat → Nat) (g : RNG) (img : Image)
    (seed : Nat) (reverse : Bool) (h : ∀ p ∈ img.data, pixelInRange p) :
    ∀ q ∈ (shuffle_pixels stream g img seed reverse).1.data, pixelInRange q := by
  intro q hq
  simp only [shuffle_pixels, List.mem_map] at hq
  obtain ⟨i, _, hiq⟩ := hq
  exact hiq ▸ getD_inRange img.data h i

theorem shuffle_pixels_noop (stream : Nat → Nat → Nat) (g : RNG) (img : Image)
    (seed : Nat) (reverse : Bool) (h : img.data.length ≤ 1) :
    (shuffle_pixels stream g img seed reverse).1 = img := by
  obtain ⟨mo, w, hh, pixels⟩ := img
  rcases pixels with _ | ⟨p, _ | ⟨q, rest⟩⟩
  · cases reverse <;> rfl
  · cases reverse <;> rfl
  · simp at h

theorem shift_colors_length (stream : Nat → Nat → Nat) (g : RNG)
    (pixels : List Pixel) (seed : Nat) (reverse : Bool) :
    (shift_colors stream g pixels seed reverse).1.length = pixels.length :=
  shiftLoop_length stream reverse pixels (seedRNG seed)

theorem shift_colors_inRange (stream : Nat → Nat → Nat) (g : RNG)
    (pixels : List Pixel) (seed : Nat) (reverse : Bool) :
    ∀ q ∈ (shift_colors stream g pixels seed reverse).1, pixelInRange q :=
  fun q hq => shiftLoop_inRange stream reverse pixels (seedRNG seed) q hq

/-!  ## Bounding `generate_seed` -/

theorem shaCompress_mem_lt (h block : List Nat) :
    ∀ x ∈ shaCompress h block, x < 4294967296 := by
  intro x hx
  unfold shaCompress at hx
  simp only [List.mem_map] at hx
  obtain ⟨p, _, hpx⟩ := hx
  rw [← hpx]
  unfold w32
  omega

theorem shaCompress_length_le (h block : List Nat) (hl : h.length ≤ 8) :
    (shaCompress h block).length ≤ 8 := by
  unfold shaCompress
  rw [List.length_map, List.length_zip]
  omega

theorem sha256Words_bounded :
    ∀ (blocks : List (List Nat)) (h : List Nat),
      (∀ x ∈ h, x < 4294967296) → h.length ≤ 8 →
      (∀ x ∈ blocks.foldl shaCompress h, x < 4294967296) ∧
        (blocks.foldl shaCompress h).length ≤ 8 := by
  intro blocks
  induction blocks with
  | nil => intro h hx hl; exact ⟨hx, hl⟩
  | cons b bs ih =>
    intro h hx hl
    rw [List.foldl_cons]
    exact ih _ (shaCompress_mem_lt h b) (shaCompress_length_le h b hl)

theorem foldl_digit_bound :
    ∀ (l : List Nat) (acc : Nat), (∀ x ∈ l, x < 4294967296) →
      acc < 4294967296 ^ (8 - l.length) → l.length ≤ 8 →
      l.foldl (fun acc w => acc * 4294967296 + w) acc < 4294967296 ^ 8 := by
  intro l
  induction l with
  | nil => intro acc _ hacc _; simpa using hacc
  | cons x t ih =>
    intro acc hx hacc hl
    have hlt : t.length + 1 ≤ 8 := by simpa using hl
    rw [List.foldl_cons]
    apply ih _ (fun y hy => hx y (List.mem_cons_of_mem _ hy)) _ (by omega)
    have h1 : x < 4294967296 := hx x (List.mem_cons_self _ _)
    have he : 8 - t.length = (8 - (t.length + 1)) + 1 := by omega
    rw [he]
    have hacc' : acc < 4294967296 ^ (8 - (t.length + 1)) := by
      simpa using hacc
    have hstep : (acc + 1) * 4294967296 = acc * 4294967296 + 4294967296 := by ring
    have hmul : (acc + 1) * 4294967296
        ≤ 4294967296 ^ (8 - (t.length + 1)) * 4294967296 :=
      Nat.mul_le_mul_right _ hacc'
    have hpow : 4294967296 ^ (8 - (t.length + 1)) * 4294967296
        = 4294967296 ^ ((8 - (t.length + 1)) + 1) := (pow_succ 4294967296 _).symm
    omega

theorem generate_seed_lt (password : String) :
    generate_seed password < 4294967296 ^ 8 := by
  unfold generate_seed sha256Words
  obtain ⟨hb, hl⟩ := sha256Words_bounded (chunks64 (shaPad (strBytes password)))
    shaH0 (by decide) (by decide)
  exact foldl_digit_bound _ 0 hb (Nat.pos_pow_of_pos _ (by norm_num)) hl

/-!  ## The claims -/

/-- C2: for every stream, seed and pixel count N, the index sequence drawn by
the permutation stage is a true bijection on `[0,N)` — it is a permutation of
`range N`, and every index `m < N` appears in it exactly once — and
unshuffling the shuffled buffer with the same seed restores the buffer
exactly; for `N ≤ 1` (in particular the empty and single-pixel images) both
shuffling and unshuffling are no-ops. -/
theorem permutation_bijectivity (stream : Nat → Nat → Nat) (g0 g1 : RNG)
    (img : Image) (seed : Nat) :
    List.Perm (shuffledIndices stream seed img.data.length)
        (List.range img.data.length)
    ∧ (∀ m, m < img.data.length →
        (shuffledIndices stream seed img.data.length).count m = 1)
    ∧ (shuffle_pixels stream g1 (shuffle_pixels stream g0 img seed false).1
        seed true).1 = img
    ∧ (img.data.length ≤ 1 →
        (shuffle_pixels stream g0 img seed false).1 = img
        ∧ (shuffle_pixels stream g0 img seed true).1 = img) := by
  refine ⟨shuffledIndices_perm stream seed img.data.length, fun m hm => ?_,
    shuffle_pixels_roundtrip stream g0 g1 img seed,
    fun hle => ⟨shuffle_pixels_noop stream g0 img seed false hle,
      shuffle_pixels_noop stream g0 img seed true hle⟩⟩
  rw [(shuffledIndices_perm stream seed img.data.length).count_eq]
  exact List.count_eq_one_of_mem (List.nodup_range _) (List.mem_range.mpr hm)

/-- Witness for C2 at a concrete stream, seed and image, discharging the
`m < N` and `N ≤ 1` hypotheses. -/
theorem permutation_bijectivity_witness :
    (shuffledIndices demoStream 7 1).count 0 = 1
    ∧ (shuffle_pixels demoStream (seedRNG 0)
        (⟨"RGB", 1, 1, [(9, 8, 7)]⟩ : Image) 7 false).1
      = ⟨"RGB", 1, 1, [(9, 8, 7)]⟩ :=
  ⟨(permutation_bijectivity demoStream (seedRNG 0) (seedRNG 1)
      ⟨"RGB", 1, 1, [(9, 8, 7)]⟩ 7).2.1 0 (by decide),
   ((permutation_bijectivity demoStream (seedRNG 0) (seedRNG 1)
      ⟨"RGB", 1, 1, [(9, 8, 7)]⟩ 7).2.2.2 (by decide)).1⟩

/-- C3: for every stream, every pixel list with 8-bit channels and every
seed, reversing the channel shift undoes it exactly: the reverse pass draws
the same three shift values per pixel position (both passes restart the
generator from the same seed) and subtracts mod 256 what the forward pass
added mod 256. -/
theorem reverse_shift_of_apply_shift (stream : Nat → Nat → Nat) (g0 g1 : RNG)
    (pixels : List Pixel) (seed : Nat) (h : ∀ p ∈ pixels, pixelInRange p) :
    (shift_colors stream g1 (shift_colors stream g0 pixels seed false).1
      seed true).1 = pixels :=
  shift_colors_roundtrip stream g0 g1 pixels seed h

/-- Witness for C3 at a concrete stream, buffer and seed. -/
theorem reverse_shift_of_apply_shift_witness :
    (shift_colors demoStream (seedRNG 3)
      (shift_colors demoStream (seedRNG 2)
        [(10, 20, 30), (200, 0, 255)] 42 false).1 42 true).1
      = [(10, 20, 30), (200, 0, 255)] :=
  reverse_shift_of_apply_shift demoStream (seedRNG 2) (seedRNG 3)
    [(10, 20, 30), (200, 0, 255)] 42 (by decide)

/-- C4: every transform stage preserves the pixel-buffer data model: the
channel shift (forward and reverse) keeps the pixel count and emits only
8-bit channel values, and the pixel shuffle (forward and reverse) keeps the
pixel count, the width, the height and the 8-bit channel range. -/
theorem transform_invariants (stream : Nat → Nat → Nat) (g : RNG)
    (img : Image) (pixels : List Pixel) (seed : Nat) (reverse : Bool)
    (himg : ∀ p ∈ img.data, pixelInRange p) :
    ((shift_colors stream g pixels seed reverse).1.length = pixels.length
      ∧ ∀ q ∈ (shift_colors stream g pixels seed reverse).1, pixelInRange q)
    ∧ ((shuffle_pixels stream g img seed reverse).1.data.length
          = img.data.length
      ∧ (shuffle_pixels stream g img seed reverse).1.width = img.width
      ∧ (shuffle_pixels stream g img seed reverse).1.height = img.height
      ∧ ∀ q ∈ (shuffle_pixels stream g img seed reverse).1.data,
          pixelInRange q) :=
  ⟨⟨shift_colors_length stream g pixels seed reverse,
    shift_colors_inRange stream g pixels seed reverse⟩,
   shuffle_pixels_length stream g img seed reverse,
   (shuffle_pixels_dims stream g img seed reverse).2.1,
   (shuffle_pixels_dims stream g img seed reverse).2.2,
   shuffle_pixels_inRange stream g img seed reverse himg⟩

/-- Witness for C4 at a concrete stream, image, buffer and seed. -/
theorem transform_invariants_witness :
    ((shift_colors demoStream (seedRNG 0) [(1, 2, 3), (250, 251, 252)] 5 true).1.length = 2
      ∧ ∀ q ∈ (shift_colors demoStream (seedRNG 0) [(1, 2, 3), (250, 251, 252)] 5 true).1,
          pixelInRange q)
    ∧ ((shuffle_pixels demoStream (seedRNG 0)
          (⟨"RGB", 3, 1, [(1, 2, 3), (4, 5, 6), (7, 8, 9)]⟩ : Image) 5 true).1.data.length = 3
      ∧ (shuffle_pixels demoStream (seedRNG 0)
          (⟨"RGB", 3, 1, [(1, 2, 3), (4, 5, 6), (7, 8, 9)]⟩ : Image) 5 true).1.width = 3
      ∧ (shuffle_pixels demoStream (seedRNG 0)
          (⟨"RGB", 3, 1, [(1, 2, 3), (4, 5, 6), (7, 8, 9)]⟩ : Image) 5 true).1.height = 1
      ∧ ∀ q ∈ (shuffle_pixels demoStream (seedRNG 0)
          (⟨"RGB", 3, 1, [(1, 2, 3), (4, 5, 6), (7, 8, 9)]⟩ : Image) 5 true).1.data,
          pixelInRange q) :=
  transform_invariants demoStream (seedRNG 0)
    ⟨"RGB", 3, 1, [(1, 2, 3), (4, 5, 6), (7, 8, 9)]⟩
    [(1, 2, 3), (250, 251, 252)] 5 true (by decide)

/-- C9: each transform stage is a pure function of its explicit inputs: its
output does not depend on the incoming state of the global generator, because
the stage re-seeds the generator at its start (`random.seed(seed)` is the
first line of both `shift_colors` and `shuffle_pixels`), so pseudorandom
draws made by other calls before or between two runs cannot change the
result. -/
theorem stage_purity (stream : Nat → Nat → Nat) (g1 g2 : RNG)
    (pixels : List Pixel) (img : Image) (seed : Nat) (reverse : Bool) :
    (shift_colors stream g1 pixels seed reverse).1
        = (shift_colors stream g2 pixels seed reverse).1
    ∧ (shuffle_pixels stream g1 img seed reverse).1
        = (shuffle_pixels stream g2 img seed reverse).1 :=
  ⟨rfl, rfl⟩

/-- C5: with an empty password both handlers reject the request before any
seed derivation: the application state (source image, displayed image and
generator state) is returned unchanged and a warning dialog is shown. -/
theorem empty_password_rejected (stream : Nat → Nat → Nat) (st : AppState)
    (s : Bool) :
    (encrypt_image stream st "" s).1 = st
    ∧ (encrypt_image stream st "" s).2 ≠ none
    ∧ (decrypt_image stream st "" s).1 = st
    ∧ (decrypt_image stream st "" s).2 ≠ none := by
  cases hst : st.image <;>
    simp [encrypt_image, decrypt_image, hst]

/-- C7: the stage order is fixed and mirror-symmetric: `Encrypt` displays the
shuffle of the (optionally) shifted image, and `Decrypt` displays the
unshuffle followed by the (optional) reverse shift; each stage draws from a
generator freshly re-initialized with the same seed (the compositions below
feed `seedRNG (generate_seed password)` to each stage), and no generator
state is shared between stages (the last two conjuncts: each stage's output
is independent of the generator state handed to it). -/
theorem pipeline_stage_order (stream : Nat → Nat → Nat) (st : AppState)
    (img : Image) (password : String) (s : Bool)
    (himg : st.image = some img) (hpw : password ≠ "") :
    ((encrypt_image stream st password s).1.processedImage
      = some (shuffle_pixels stream (seedRNG (generate_seed password))
          (if s then
            ⟨img.mode, img.width, img.height,
              (shift_colors stream (seedRNG (generate_seed password)) img.data
                (generate_seed password) false).1⟩
           else img)
          (generate_seed password) false).1)
    ∧ ((decrypt_image stream st password s).1.processedImage
      = some (if s then
            ⟨(shuffle_pixels stream (seedRNG (generate_seed password)) img
                (generate_seed password) true).1.mode,
             (shuffle_pixels stream (seedRNG (generate_seed password)) img
                (generate_seed password) true).1.width,
             (shuffle_pixels stream (seedRNG (generate_seed password)) img
                (generate_seed password) true).1.height,
             (shift_colors stream (seedRNG (generate_seed password))
               (shuffle_pixels stream (seedRNG (generate_seed password)) img
                 (generate_seed password) true).1.data
               (generate_seed password) true).1⟩
          else (shuffle_pixels stream (seedRNG (generate_seed password)) img
            (generate_seed password) true).1))
    ∧ (∀ (g g' : RNG) (ps : List Pixel) (sd : Nat) (rv : Bool),
        (shift_colors stream g ps sd rv).1 = (shift_colors stream g' ps sd rv).1)
    ∧ (∀ (g g' : RNG) (im : Image) (sd : Nat) (rv : Bool),
        (shuffle_pixels stream g im sd rv).1 = (shuffle_pixels stream g' im sd rv).1) := by
  refine ⟨?_, ?_, fun g g' ps sd rv => rfl, fun g g' im sd rv => rfl⟩ <;>
    cases s <;>
      · simp only [encrypt_image, decrypt_image, himg, if_neg hpw]
        rfl

/-- Witness for C7 at a concrete stream, state and password. -/
theorem pipeline_stage_order_witness :
    (encrypt_image demoStream
        ⟨some ⟨"RGB", 1, 2, [(1, 2, 3), (4, 5, 6)]⟩, none, seedRNG 0⟩
        "pw" true).1.processedImage
      = some (shuffle_pixels demoStream (seedRNG (generate_seed "pw"))
          (if true then
            ⟨Image.mode ⟨"RGB", 1, 2, [(1, 2, 3), (4, 5, 6)]⟩,
             Image.width ⟨"RGB", 1, 2, [(1, 2, 3), (4, 5, 6)]⟩,
             Image.height ⟨"RGB", 1, 2, [(1, 2, 3), (4, 5, 6)]⟩,
              (shift_colors demoStream (seedRNG (generate_seed "pw"))
                (Image.data ⟨"RGB", 1, 2, [(1, 2, 3), (4, 5, 6)]⟩)
                (generate_seed "pw") false).1⟩
           else ⟨"RGB", 1, 2, [(1, 2, 3), (4, 5, 6)]⟩)
          (generate_seed "pw") false).1 :=
  (pipeline_stage_order demoStream
    ⟨some ⟨"RGB", 1, 2, [(1, 2, 3), (4, 5, 6)]⟩, none, seedRNG 0⟩
    ⟨"RGB", 1, 2, [(1, 2, 3), (4, 5, 6)]⟩ "pw" true rfl (by decide)).1

/-- C10: with color shifting enabled, `Encrypt` mutates the loaded source
image in place: after the call the stored source image (`self.image`) holds
the channel-shifted pixel data (not the untouched original buffer), while the
shuffle stage's freshly allocated output is what is displayed
(`self.processed_image`). -/
theorem encrypt_mutates_source (stream : Nat → Nat → Nat) (st : AppState)
    (img : Image) (password : String)
    (himg : st.image = some img) (hpw : password ≠ "") :
    (encrypt_image stream st password true).1.image
      = some ⟨img.mode, img.width, img.height,
          (shift_colors stream st.rng img.data (generate_seed password) false).1⟩
    ∧ (encrypt_image stream st password true).1.processedImage
      = some (shuffle_pixels stream
          (shift_colors stream st.rng img.data (generate_seed password) false).2
          ⟨img.mode, img.width, img.height,
            (shift_colors stream st.rng img.data (generate_seed password) false).1⟩
          (generate_seed password) false).1 := by
  refine ⟨?_, ?_⟩ <;> simp [encrypt_image, himg, hpw]

set_option maxRecDepth 100000 in
/-- Witness for C10 at a concrete stream, state and password; the last
conjunct additionally checks that on this input the stored data really
differs from the original buffer. -/
theorem encrypt_mutates_source_witness :
    (encrypt_image demoStream
        ⟨some ⟨"RGB", 2, 1, [(10, 20, 30), (40, 50, 60)]⟩, none, seedRNG 0⟩
        "pw" true).1.image
      = some ⟨"RGB", 2, 1,
          (shift_colors demoStream (seedRNG 0) [(10, 20, 30), (40, 50, 60)]
            (generate_seed "pw") false).1⟩
    ∧ (shift_colors demoStream (seedRNG 0) [(10, 20, 30), (40, 50, 60)]
        (generate_seed "pw") false).1 ≠ [(10, 20, 30), (40, 50, 60)] :=
  ⟨(encrypt_mutates_source demoStream
      ⟨some ⟨"RGB", 2, 1, [(10, 20, 30), (40, 50, 60)]⟩, none, seedRNG 0⟩
      ⟨"RGB", 2, 1, [(10, 20, 30), (40, 50, 60)]⟩ "pw" rfl (by decide)).1,
   by decide⟩

/-- C1: running the decrypt pipeline on the output of the encrypt pipeline
with the same password and the same color-shift flag returns the original
image exactly (channel for channel, position for position), for every stream,
every image over 8-bit channels (including the empty and single-pixel
images), every non-empty password and both flag settings. -/
theorem round_trip_identity (stream : Nat → Nat → Nat) (st st2 : AppState)
    (img enc : Image) (password : String) (s : Bool)
    (himg : st.image = some img) (hpw : password ≠ "")
    (hrange : ∀ p ∈ img.data, pixelInRange p)
    (henc : (encrypt_image stream st password s).1.processedImage = some enc)
    (hst2 : st2.image = some enc) :
    (decrypt_image stream st2 password s).1.processedImage = some img := by
  simp only [encrypt_image, himg, if_neg hpw] at henc
  simp only [decrypt_image, hst2, if_neg hpw]
  cases s with
  | false =>
    simp only [Bool.false_eq_true, if_false, Option.some.injEq] at henc ⊢
    rw [← henc, shuffle_pixels_roundtrip]
  | true =>
    simp only [if_true, Option.some.injEq] at henc ⊢
    rw [← henc, shuffle_pixels_roundtrip]
    rw [shift_colors_roundtrip stream st.rng _ img.data (generate_seed password) hrange]

set_option maxRecDepth 100000 in
/-- Witness for C1: the spec's concrete scenario, a 2-by-2 image encrypted
and decrypted with password "test123" and color shifting enabled. -/
theorem round_trip_identity_witness :
    (decrypt_image demoStream
        ⟨(encrypt_image demoStream
            ⟨some ⟨"RGB", 2, 2, [(10, 20, 30), (40, 50, 60), (70, 80, 90), (100, 110, 120)]⟩,
              none, seedRNG 0⟩ "test123" true).1.processedImage,
          none, seedRNG 5⟩ "test123" true).1.processedImage
      = some ⟨"RGB", 2, 2, [(10, 20, 30), (40, 50, 60), (70, 80, 90), (100, 110, 120)]⟩ :=
  round_trip_identity demoStream
    ⟨some ⟨"RGB", 2, 2, [(10, 20, 30), (40, 50, 60), (70, 80, 90), (100, 110, 120)]⟩,
      none, seedRNG 0⟩
    _ ⟨"RGB", 2, 2, [(10, 20, 30), (40, 50, 60), (70, 80, 90), (100, 110, 120)]⟩ _
    "test123" true rfl (by decide) (by decide) rfl rfl

set_option maxRecDepth 100000 in
/-- C6 counterexample: feeding `decrypt_image` an image whose pixel count (3)
does not match its stored dimensions (2 by 2) does not fail: no warning is
shown and a transformed buffer is returned, contradicting the claim that the
operation fails with a `ShapeMismatch` condition and returns no transformed
buffer. -/
theorem shape_mismatch_not_rejected :
    (decrypt_image demoStream
        ⟨some ⟨"RGB", 2, 2, [(1, 2, 3), (4, 5, 6), (7, 8, 9)]⟩, none, seedRNG 0⟩
        "x" false).2 = none
    ∧ ((decrypt_image demoStream
        ⟨some ⟨"RGB", 2, 2, [(1, 2, 3), (4, 5, 6), (7, 8, 9)]⟩, none, seedRNG 0⟩
        "x" false).1.processedImage).isSome = true := by
  constructor
  · rfl
  · decide

/-- C6 amended: the code performs no shape validation at all: for every
loaded image (whatever the relation between its pixel count and its stored
width and height) and every non-empty password, `decrypt_image` shows no
warning and always returns a transformed buffer; the permutation stage simply
permutes over the actual pixel count `len(pixels)`.  No `ShapeMismatch`
condition exists in the program. -/
theorem no_shape_validation (stream : Nat → Nat → Nat) (st : AppState)
    (img : Image) (password : String) (s : Bool)
    (himg : st.image = some img) (hpw : password ≠ "") :
    (decrypt_image stream st password s).2 = none
    ∧ ((decrypt_image stream st password s).1.processedImage).isSome = true := by
  constructor <;> simp [decrypt_image, himg, hpw]

set_option maxRecDepth 100000 in
/-- Witness for the amended C6 at a concrete mismatched image (width 3,
height 1, but only 2 pixels). -/
theorem no_shape_validation_witness :
    (decrypt_image demoStream
        ⟨some ⟨"RGB", 3, 1, [(1, 2, 3), (4, 5, 6)]⟩, none, seedRNG 0⟩
        "y" true).2 = none
    ∧ ((decrypt_image demoStream
        ⟨some ⟨"RGB", 3, 1, [(1, 2, 3), (4, 5, 6)]⟩, none, seedRNG 0⟩
        "y" true).1.processedImage).isSome = true :=
  no_shape_validation demoStream
    ⟨some ⟨"RGB", 3, 1, [(1, 2, 3), (4, 5, 6)]⟩, none, seedRNG 0⟩
    ⟨"RGB", 3, 1, [(1, 2, 3), (4, 5, 6)]⟩ "y" true rfl (by decide)

/-- C8 counterexample: `generate_seed` maps infinitely many non-empty
passwords into the finite range `[0, 2^256)`, so it cannot assign different
seeds to all pairs of distinct non-empty passwords: the claimed universal
injectivity is false (by pigeonhole, without exhibiting an explicit
collision). -/
theorem seed_injectivity_fails :
    ¬ ∀ (pw1 pw2 : String), pw1 ≠ "" → pw2 ≠ "" → pw1 ≠ pw2 →
        generate_seed pw1 ≠ generate_seed pw2 := by
  intro h
  have hinj : Function.Injective
      (fun n : Nat => String.mk (List.replicate (n + 1) 'a')) := by
    intro m n he
    have hlen := congrArg (fun s : String => s.data.length) he
    simpa using hlen
  obtain ⟨m, n, hmn, he⟩ := Finite.exists_ne_map_eq_of_infinite
    (fun n : Nat =>
      (⟨generate_seed (String.mk (List.replicate (n + 1) 'a')),
        generate_seed_lt _⟩ : Fin (4294967296 ^ 8)))
  have hne : String.mk (List.replicate (m + 1) 'a')
      ≠ String.mk (List.replicate (n + 1) 'a') := fun hc => hmn (hinj hc)
  have hm0 : String.mk (List.replicate (m + 1) 'a') ≠ "" := by
    intro hc
    have := congrArg (fun s : String => s.data.length) hc
    simp at this
  have hn0 : String.mk (List.replicate (n + 1) 'a') ≠ "" := by
    intro hc
    have := congrArg (fun s : String => s.data.length) hc
    simp at this
  exact h _ _ hm0 hn0 hne (by simpa using congrArg Fin.val he)

/-- C8 amended: `generate_seed` is the SHA-256 digest of the password's
UTF-8 bytes read as a big-endian unsigned integer; it is deterministic by
construction, and while injectivity cannot hold for all pairs of distinct
passwords (see the pigeonhole counterexample), distinct fixture passwords do
receive distinct seeds: the pinned digest values for "test123" and "wrong"
agree with SHA-256 and differ from each other. -/
theorem seed_fixture_values :
    generate_seed "test123"
        = 0xecd71870d1963316a97e3ac3408c9835ad8cf0f3c1bc703527c30265534f75ae
    ∧ generate_seed "wrong"
        = 0x8810ad581e59f2bc3928b261707a71308f7e139eb04820366dc4d5c18d980225
    ∧ generate_seed "test123" ≠ generate_seed "wrong" := by
  refine ⟨by decide, by decide, by decide⟩
